import Mathlib

/-!
Formal model of the trillium `http` crate's connection engine
(`src/http/src/conn.rs`): head scanning, request body framing
resolution, close/upgrade decisions, response header finalization and
serialization.  Rust strings are modelled as lists of characters, byte
buffers as lists of naturals, and the byte stream feeding the head
scanner as a list of read results (one list of bytes per `read` call,
the empty list denoting end of stream).
-/

/-- Character strings from the Rust source, modelled as lists of characters. -/
abbrev Str := List Char

/-- Model of Rust `str::to_ascii_lowercase` (`Char.toLower` lowercases exactly
the ASCII uppercase letters). -/
def asciiLower (s : Str) : Str := s.map Char.toLower

/-- Model of Rust `str::eq_ignore_ascii_case`. -/
def eqIgnoreAsciiCase (a b : Str) : Bool := asciiLower a == asciiLower b

/-- Model of Rust `str::split(",")`: the pieces between commas, empty pieces
kept, no whitespace trimming. -/
def splitComma : Str → List Str
  | [] => [[]]
  | c :: rest =>
    match splitComma rest, c == ',' with
    | r, true => [] :: r
    | [], false => [[c]]
    | p :: r, false => (c :: p) :: r

/-- Whitespace trimming of a token (used only to state the spec's reading of
token matching, not by the code model). -/
def trimOWS (s : Str) : Str :=
  ((s.dropWhile fun c => c == ' ' || c == '\t').reverse.dropWhile
    fun c => c == ' ' || c == '\t').reverse

/-- Model of parsing a header value as an unsigned decimal number, the
fixed input/output contract the spec assigns to content-length value
parsing (`ContentLength::from_headers`). -/
def parseDec (s : Str) : Option Nat :=
  if s ≠ [] ∧ s.all Char.isDigit then
    some (s.foldl (fun acc c => acc * 10 + (c.toNat - 48)) 0)
  else none

/-- Decimal rendering of a natural number, as used for `Content-Length`. -/
def natToStr (n : Nat) : Str := Nat.toDigits 10 n

/-- One entry of the header container: a header name (normalized to ASCII
lower case on insertion, as the external header-name type does) together
with its values.  The container itself is the spec's assumed pre-existing
capability: case-insensitive names, multi-valued entries. -/
structure HeaderEntry where
  name : Str
  values : List Str
deriving DecidableEq, Repr

/-- The header container, as a list of entries. -/
abbrev Headers := List HeaderEntry

/-- Case-insensitive lookup: the values of the first entry whose name
matches. -/
def Headers.get (h : Headers) (n : Str) : Option (List Str) :=
  (h.find? fun e => asciiLower e.name == asciiLower n).map fun e => e.values

/-- The single string value of a header (its first value), the model of
`HeaderValues::as_str`. -/
def Headers.getStr (h : Headers) (n : Str) : Option Str :=
  (Headers.get h n).bind List.head?

/-- Insertion replaces any existing entry of the same (case-insensitive)
name, the model of `Headers::insert` / `apply`.  The engine inserts only
already-lowercase names (matching the external header-name
normalization), so the name is stored as given. -/
def Headers.insert (h : Headers) (n : Str) (vs : List Str) : Headers :=
  (h.filter fun e => !(asciiLower e.name == asciiLower n)) ++ [⟨n, vs⟩]

/-- Model of Rust `str::contains(needle)`: substring containment. -/
def containsSub (hay needle : Str) : Bool :=
  if needle.isPrefixOf hay then true
  else
    match hay with
    | [] => false
    | _ :: t => containsSub t needle

/-- Modelled from the spec: `Headers::contains_ignore_ascii_case`
(declared on the header container, whose source is not among the provided
files) performs a case-insensitive substring match of the needle against
the header's value, per §4.3 of the spec. -/
def containsIgnoreAsciiCase (h : Headers) (n needle : Str) : Bool :=
  match Headers.getStr h n with
  | some v => containsSub (asciiLower v) (asciiLower needle)
  | none => false

/-- HTTP methods (the ones this development mentions, plus a catch-all). -/
inductive Method
  | Get | Head | Post | Put | Delete | Connect | Options | Other (s : Str)
deriving DecidableEq, Repr

/-- Modelled from the spec: the request body framing state machine's state
type (`request_body.rs`, not among the provided files): `Start`,
`FixedLength {current_index, total_length}`, `Chunked {remaining}`, `End`. -/
inductive RequestBodyState
  | Start
  | Chunked (remaining : Nat)
  | FixedLength (current_index total_length : Nat)
  | End
deriving DecidableEq, Repr

/-- An outgoing body: either byte-backed (length statically known) or
stream-backed (length unknown), mirroring `Body::len` returning
`Some`/`None`. -/
inductive Body
  | bytes (data : Str)
  | stream (chunks : List Str)
deriving DecidableEq, Repr

/-- Model of `Body::len`. -/
def Body.len : Body → Option Nat
  | .bytes d => some d.length
  | .stream _ => none

/-- The error type of the `http` crate (the constructors this development
mentions). -/
inductive Error
  | ClosedByClient
  | PartialHead
  | HeadersTooLong
  | UnexpectedHeader (n : Str)
  | MalformedHeader (n : Str)
  | MissingMethod
  | MissingVersion
  | RequestPathMissing
deriving DecidableEq, Repr

/-- The fields of `Conn` that the modelled operations read or write.  The
stream is passed separately where needed. -/
structure Conn where
  request_headers : Headers
  response_headers : Headers
  method : Method
  status : Option Nat
  response_body : Option Body
  request_body_state : RequestBodyState
deriving DecidableEq, Repr

/-- Model of `rw.read(&mut buf[pos..])` copying `data` into the buffer at
`pos`, leaving the rest of the buffer unchanged. -/
def writeAt (buf : List Nat) (pos : Nat) (data : List Nat) : List Nat :=
  buf.take pos ++ data ++ buf.drop (pos + data.length)

/-- Model of `TwoWaySearcher::new(b"\r\n\r\n").search_in(region)`: index of
the first occurrence of `[13, 10, 13, 10]`. -/
def searchIn : List Nat → Option Nat
  | [] => none
  | a :: rest =>
    if [13, 10, 13, 10].isPrefixOf (a :: rest) then some 0
    else (searchIn rest).map (· + 1)

/-- Outcome of the head scan.  `Panic` models `Vec::split_off` aborting on
an out-of-bounds index; `Blocked` models the scanner awaiting a read the
modelled stream never delivers. -/
inductive HeadResult
  | Ok (head body : List Nat) (rest : List (List Nat))
  | Err (e : Error)
  | Panic
  | Blocked
deriving DecidableEq, Repr

def MAX_HEAD_LENGTH : Nat := 8 * 1024

/-- The loop of `Conn::head`: extend the buffer by 100 zero bytes, read the
next stream chunk into `buf[len..]`, search `buf[len..]` for the boundary;
on a hit truncate to `len + bytes` and split at `len + index + 4`; on a
miss fail on a zero-byte read (`ClosedByClient` / `PartialHead`) or when
the accumulated length reaches `MAX_HEAD_LENGTH`, else continue. -/
def headLoop : List (List Nat) → List Nat → Nat → HeadResult
  | [], _, _ => .Blocked
  | chunk :: rest, buf, len =>
    let buf1 := buf ++ List.replicate 100 0
    let bytes := chunk.length
    let buf2 := writeAt buf1 len chunk
    match searchIn (buf2.drop len) with
    | some index =>
      let buf3 := buf2.take (len + bytes)
      if len + index + 4 ≤ buf3.length then
        .Ok (buf3.take (len + index + 4)) (buf3.drop (len + index + 4)) rest
      else
        .Panic
    | none =>
      if bytes = 0 then
        if len = 0 then .Err .ClosedByClient else .Err .PartialHead
      else if MAX_HEAD_LENGTH ≤ len + bytes then .Err .HeadersTooLong
      else headLoop rest buf2 (len + bytes)

/-- Model of `Conn::head`: run the scan loop on the stream `chunks` with the
optional carry-over buffer, starting with `len = 0` exactly as the source
does. -/
def Conn.head (chunks : List (List Nat)) (bytes : Option (List Nat)) : HeadResult :=
  headLoop chunks (bytes.getD []) 0

def contentLengthN : Str := "content-length".toList
def transferEncodingN : Str := "transfer-encoding".toList
def connectionN : Str := "connection".toList
def upgradeN : Str := "upgrade".toList
def dateN : Str := "date".toList
def chunkedV : Str := "chunked".toList
def closeV : Str := "close".toList

/-- Model of `Conn::request_content_length`: `None` when the header is
absent, the parsed value when it parses, `MalformedHeader("content-length")`
otherwise. -/
def request_content_length (c : Conn) : Except Error (Option Nat) :=
  match Headers.getStr c.request_headers contentLengthN with
  | none => .ok none
  | some v =>
    match parseDec v with
    | some n => .ok (some n)
    | none => .error (.MalformedHeader contentLengthN)

/-- Model of `Conn::initialize_request_body_state`.  The `100 Continue`
interim write is pure I/O and is not reflected in the returned value.
Returns the `Result` together with the updated connection. -/
def initialize_request_body_state (c : Conn) : Except Error Unit × Conn :=
  match c.request_body_state with
  | .Start =>
    match request_content_length c with
    | .error e => (.error e, c)
    | .ok content_length =>
      let transfer_encoding_chunked :=
        containsIgnoreAsciiCase c.request_headers transferEncodingN chunkedV
      if content_length.isSome && transfer_encoding_chunked then
        (.error (.UnexpectedHeader contentLengthN), c)
      else
        let st :=
          if transfer_encoding_chunked then RequestBodyState.Chunked 0
          else
            match content_length with
            | some total_length => RequestBodyState.FixedLength 0 total_length
            | none => RequestBodyState.End
        (.ok (), { c with request_body_state := st })
  | _ => (.ok (), c)

/-- Model of `Conn::request_body`: the initialization `Result` is dropped
with `.ok()` and a body handle over the (possibly updated) connection is
returned. -/
def request_body (c : Conn) : Conn := (initialize_request_body_state c).2

/-- Model of `Conn::should_close`. -/
def should_close (c : Conn) : Bool :=
  containsIgnoreAsciiCase c.request_headers connectionN closeV ||
    containsIgnoreAsciiCase c.response_headers connectionN closeV

/-- Model of `Conn::should_upgrade`: an `Upgrade` request header exists, the
`Connection` value split on `","` has a piece equal (ignoring ASCII case,
without trimming) to `"upgrade"`, and the status is exactly 101. -/
def should_upgrade (c : Conn) : Bool :=
  let has_upgrade_header := (Headers.get c.request_headers upgradeN).isSome
  let connection_upgrade :=
    match Headers.getStr c.request_headers connectionN with
    | some h => (splitComma h).any fun t => eqIgnoreAsciiCase t upgradeN
    | none => false
  let response_is_switching_protocols := c.status == some 101
  has_upgrade_header && connection_upgrade && response_is_switching_protocols

/-- The spec's reading of token matching for a `Connection` header value:
split on commas, trim optional whitespace, compare ignoring ASCII case.
Stated only to compare against the code's behaviour. -/
def connectionHasToken (h : Headers) (tok : Str) : Bool :=
  match Headers.getStr h connectionN with
  | some v => (splitComma v).any fun t => eqIgnoreAsciiCase (trimOWS t) tok
  | none => false

/-- The three lifecycle outcomes (`ConnectionStatus<RW>`). -/
inductive ConnectionStatus
  | Close
  | Conn (c : Conn)
  | Upgrade (c : Conn)
deriving DecidableEq, Repr

/-- Model of `Conn::finish`, with the outcome of `self.next()` (parsing a
new head from the same stream) supplied as `next`. -/
def finish (c : Conn) (next : Except Error Conn) : Except Error ConnectionStatus :=
  if should_close c then .ok .Close
  else if should_upgrade c then .ok (.Upgrade c)
  else
    match next with
    | .error .ClosedByClient => .ok .Close
    | .error e => .error e
    | .ok c2 => .ok (.Conn c2)

/-- Model of `Conn::body_len`: the zero-length default when no body was
set, else the body's statically known length. -/
def body_len (c : Conn) : Option Nat :=
  match c.response_body with
  | some b => b.len
  | none => some 0

/-- Model of `Conn::finalize_headers`; `now` is the formatted current date
written by `Date::now().apply(..)`. -/
def finalize_headers (c : Conn) (now : Str) : Headers :=
  let h := c.response_headers
  let h :=
    if (Headers.get h transferEncodingN).isNone then
      match body_len c with
      | some len => Headers.insert h contentLengthN [natToStr len]
      | none => Headers.insert h transferEncodingN [chunkedV]
    else h
  if (Headers.get h dateN).isNone then Headers.insert h dateN [now] else h

/-- Model of `StatusCode::canonical_reason` for the codes this development
mentions. -/
def canonicalReason (n : Nat) : Str :=
  if n = 101 then "Switching Protocols".toList
  else if n = 200 then "OK".toList
  else if n = 404 then "Not Found".toList
  else "Unknown".toList

def crlf : Str := ['\r', '\n']

/-- The status line `HTTP/1.1 <code> <reason>\r\n`, with the `Not Found`
default when no status was set. -/
def statusLine (c : Conn) : Str :=
  "HTTP/1.1 ".toList ++ natToStr (c.status.getD 404) ++ ' ' ::
    (canonicalReason (c.status.getD 404) ++ crlf)

/-- The sort key of `headers.sort_unstable_by_key(|(h, _)| h.as_str())`. -/
def entryLe (a b : HeaderEntry) : Prop := a.name ≤ b.name

instance : DecidableRel entryLe := fun a b =>
  inferInstanceAs (Decidable (a.name ≤ b.name))

instance : IsTotal HeaderEntry entryLe :=
  ⟨fun a b => le_total a.name b.name⟩

instance : IsTrans HeaderEntry entryLe :=
  ⟨fun _ _ _ hab hbc => le_trans hab hbc⟩

/-- The sort of the response headers by name before sending. -/
def sortHeaders (h : Headers) : Headers := List.insertionSort entryLe h

/-- One `Name: value\r\n` line per value, in the order given. -/
def renderHeaders (h : Headers) : Str :=
  (h.map fun e => (e.values.map fun v => e.name ++ ':' :: ' ' :: (v ++ crlf)).flatten).flatten

/-- The bytes `Conn::send_headers` writes: status line, finalized headers
sorted by name with one line per value, terminating blank line. -/
def sendHeadersOutput (c : Conn) (now : Str) : Str :=
  statusLine c ++ renderHeaders (sortHeaders (finalize_headers c now)) ++ crlf

/-- Modelled from the spec: the response body encoder (`body_encoder.rs`,
not among the provided files) copies a known-length body verbatim and
chunk-encodes an unknown-length one — `<hex-length>\r\nCHUNK\r\n` per
non-empty chunk, then the terminal `0\r\n\r\n`. -/
def bodyEncoderOutput : Body → Str
  | .bytes d => d
  | .stream chunks =>
    ((chunks.filter fun ch => ch ≠ []).map
      fun ch => Nat.toDigits 16 ch.length ++ crlf ++ ch ++ crlf).flatten
      ++ ('0' :: crlf) ++ crlf

/-- The bytes `Conn::encode` writes: the headers, then — unless the method
is `HEAD` — the encoded body, when one was set. -/
def encodeOutput (c : Conn) (now : Str) : Str :=
  sendHeadersOutput c now ++
    (if c.method = Method.Head then []
     else
       match c.response_body with
       | some b => bodyEncoderOutput b
       | none => [])

set_option maxRecDepth 10000

/-- ASCII bytes of a string, for concrete head-scan inputs. -/
def asciiBytes (s : String) : List Nat := s.toList.map Char.toNat

lemma searchIn_replicate_zero (k : Nat) : searchIn (List.replicate k 0) = none := by
  induction k with
  | zero => rfl
  | succ n ih =>
    rw [List.replicate_succ]
    simp [searchIn, List.isPrefixOf, ih]

lemma pfx_of_append_zeros (l : List Nat) (k : Nat)
    (h : [13, 10, 13, 10].isPrefixOf (l ++ List.replicate k 0) = true) :
    [13, 10, 13, 10].isPrefixOf l = true := by
  match l with
  | [] =>
    cases k with
    | zero => simp at h
    | succ k => simp [List.isPrefixOf, List.replicate_succ] at h
  | [a] =>
    cases k with
    | zero => simp at h
    | succ k => simp [List.isPrefixOf, List.replicate_succ] at h
  | [a, b] =>
    cases k with
    | zero => simp at h
    | succ k => simp [List.isPrefixOf, List.replicate_succ] at h
  | [a, b, c] =>
    cases k with
    | zero => simp at h
    | succ k => simp [List.isPrefixOf, List.replicate_succ] at h
  | a :: b :: c :: d :: t =>
    simp only [List.cons_append, List.isPrefixOf] at h ⊢
    simpa using h

lemma searchIn_append_zeros (l : List Nat) (k : Nat) (h : searchIn l = none) :
    searchIn (l ++ List.replicate k 0) = none := by
  induction l with
  | nil => simpa using searchIn_replicate_zero k
  | cons a t ih =>
    rw [searchIn] at h
    by_cases hp : [13, 10, 13, 10].isPrefixOf (a :: t) = true
    · rw [if_pos hp] at h
      exact absurd h (by simp)
    · rw [if_neg hp] at h
      have ht : searchIn t = none := by
        cases hst : searchIn t with
        | none => rfl
        | some v => rw [hst] at h; simp at h
      rw [List.cons_append, searchIn, if_neg, ih ht]
      · rfl
      · intro hc
        exact hp (pfx_of_append_zeros (a :: t) k (by simpa using hc))

lemma writeAt_nil (buf : List Nat) (pos : Nat) : writeAt buf pos [] = buf := by
  simp [writeAt]

lemma length_writeAt (buf data : List Nat) (pos : Nat)
    (h : pos + data.length ≤ buf.length) :
    (writeAt buf pos data).length = buf.length := by
  simp [writeAt]
  omega

lemma drop_writeAt (buf data : List Nat) (pos : Nat) (h : pos ≤ buf.length) :
    (writeAt buf pos data).drop pos = data ++ buf.drop (pos + data.length) := by
  unfold writeAt
  have h1 : (buf.take pos).length = pos := by
    rw [List.length_take]
    omega
  rw [List.append_assoc, List.drop_append_eq_append_drop, h1,
    List.drop_eq_nil_of_le (by omega), Nat.sub_self, List.drop_zero, List.nil_append]

/-- Total number of bytes delivered by a list of reads. -/
def sumLens (chunks : List (List Nat)) : Nat := (chunks.map List.length).sum

lemma drop_buf_ext (buf : List Nat) (len : Nat) (hle : len ≤ buf.length)
    (hinv : buf.drop len = List.replicate (buf.length - len) 0) :
    (buf ++ List.replicate 100 0).drop len =
      List.replicate (buf.length - len + 100) 0 := by
  rw [List.drop_append_eq_append_drop, hinv, Nat.sub_eq_zero_of_le hle,
    List.drop_zero, List.replicate_add]

lemma headLoop_partialHead (chunks : List (List Nat)) :
    ∀ (buf : List Nat) (len : Nat),
      len ≤ buf.length →
      buf.drop len = List.replicate (buf.length - len) 0 →
      (∀ ch ∈ chunks, ch ≠ [] ∧ ch.length ≤ 100 ∧ searchIn ch = none) →
      len + sumLens chunks < MAX_HEAD_LENGTH →
      0 < len + sumLens chunks →
      headLoop (chunks ++ [[]]) buf len = .Err .PartialHead := by
  induction chunks with
  | nil =>
    intro buf len hle hinv _ hmax hpos
    have hs : searchIn ((writeAt (buf ++ List.replicate 100 0) len []).drop len) = none := by
      rw [writeAt_nil, drop_buf_ext buf len hle hinv]
      exact searchIn_replicate_zero _
    have h0 : ¬ len = 0 := by
      simp [sumLens] at hpos
      omega
    simp only [List.nil_append, headLoop]
    rw [hs]
    simp [h0]
  | cons ch rest ih =>
    intro buf len hle hinv hch hmax hpos
    obtain ⟨hne, h100, hsch⟩ := hch ch (by simp)
    have hlb1 : len + ch.length ≤ (buf ++ List.replicate 100 0).length := by
      simp
      omega
    have hd2 : (writeAt (buf ++ List.replicate 100 0) len ch).drop len =
        ch ++ List.replicate (buf.length - len + 100 - ch.length) 0 := by
      rw [drop_writeAt _ _ _ (by simp; omega), ← List.drop_drop,
        drop_buf_ext buf len hle hinv, List.drop_replicate]
    have hs : searchIn ((writeAt (buf ++ List.replicate 100 0) len ch).drop len) = none := by
      rw [hd2]
      exact searchIn_append_zeros ch _ hsch
    have hbne : ¬ ch.length = 0 := by
      simpa [List.length_eq_zero] using hne
    have hsum : sumLens (ch :: rest) = ch.length + sumLens rest := by
      simp [sumLens]
    rw [hsum] at hmax hpos
    simp only [List.cons_append, headLoop]
    rw [hs]
    rw [if_neg hbne, if_neg (by unfold MAX_HEAD_LENGTH at hmax ⊢; omega)]
    apply ih
    · rw [length_writeAt _ _ _ hlb1]
      simp
      omega
    · rw [length_writeAt _ _ _ hlb1, ← List.drop_drop, hd2, List.drop_left]
      congr 1
      simp
      omega
    · intro c hc
      exact hch c (by simp [hc])
    · omega
    · omega

lemma headLoop_tooLong (chunks : List (List Nat)) :
    ∀ (buf : List Nat) (len : Nat),
      len ≤ buf.length →
      buf.drop len = List.replicate (buf.length - len) 0 →
      (∀ ch ∈ chunks, ch ≠ [] ∧ ch.length ≤ 100 ∧ searchIn ch = none) →
      MAX_HEAD_LENGTH ≤ len + sumLens chunks →
      len < MAX_HEAD_LENGTH →
      headLoop chunks buf len = .Err .HeadersTooLong := by
  induction chunks with
  | nil =>
    intro buf len _ _ _ hmax hlt
    simp [sumLens] at hmax
    omega
  | cons ch rest ih =>
    intro buf len hle hinv hch hmax hlt
    obtain ⟨hne, h100, hsch⟩ := hch ch (by simp)
    have hlb1 : len + ch.length ≤ (buf ++ List.replicate 100 0).length := by
      simp
      omega
    have hd2 : (writeAt (buf ++ List.replicate 100 0) len ch).drop len =
        ch ++ List.replicate (buf.length - len + 100 - ch.length) 0 := by
      rw [drop_writeAt _ _ _ (by simp; omega), ← List.drop_drop,
        drop_buf_ext buf len hle hinv, List.drop_replicate]
    have hs : searchIn ((writeAt (buf ++ List.replicate 100 0) len ch).drop len) = none := by
      rw [hd2]
      exact searchIn_append_zeros ch _ hsch
    have hbne : ¬ ch.length = 0 := by
      simpa [List.length_eq_zero] using hne
    have hsum : sumLens (ch :: rest) = ch.length + sumLens rest := by
      simp [sumLens]
    rw [hsum] at hmax
    simp only [headLoop]
    rw [hs]
    rw [if_neg hbne]
    by_cases hcross : MAX_HEAD_LENGTH ≤ len + ch.length
    · rw [if_pos hcross]
    · rw [if_neg hcross]
      apply ih
      · rw [length_writeAt _ _ _ hlb1]
        simp
        omega
      · rw [length_writeAt _ _ _ hlb1, ← List.drop_drop, hd2, List.drop_left]
        congr 1
        simp
        omega
      · intro c hc
        exact hch c (by simp [hc])
      · omega
      · omega

/-- C1 (code bug): the stream delivers the complete head
`"GET / HTTP/1.1\r\n\r\n"` split across two reads (the terminating
`\r\n\r\n` straddling the read boundary) and then closes.  The
concatenated bytes contain the boundary at index 14, yet `Conn::head`
fails with `PartialHead` instead of succeeding with an empty carry-over,
because each iteration searches only `buf[len..]`, the bytes of the
current read. -/
theorem c1_split_read_boundary_missed :
    searchIn (asciiBytes "GET / HTTP/1.1\r\n\r" ++ asciiBytes "\n") = some 14 ∧
    Conn.head [asciiBytes "GET / HTTP/1.1\r\n\r", asciiBytes "\n", []] none =
      .Err .PartialHead := by
  exact ⟨by decide, by decide⟩

/-- C8 counterexample: the claim quantifies over every head scan, including
those given a carry-over buffer.  With carry-over bytes `"x\r\n\r\n"` and a
peer that closes immediately (a zero-byte read with nothing accumulated),
the scan does not fail with `ClosedByClient`: the boundary search hits the
carried bytes, `buf.truncate(len + bytes)` empties the buffer, and
`split_off` panics. -/
theorem c8_counterexample :
    Conn.head [[]] (some (asciiBytes "x\r\n\r\n")) = .Panic ∧
    Conn.head [[]] (some (asciiBytes "x\r\n\r\n")) ≠ .Err .ClosedByClient := by
  exact ⟨by decide, by decide⟩

/-- C8 (amended to scans without a carry-over buffer): if the peer closes
before delivering anything, the scan fails with `ClosedByClient`; if it
closes after delivering boundary-free bytes (each read at most one
100-byte window) totalling under 8192, the scan fails with `PartialHead`;
and if boundary-free reads accumulate to 8192 bytes or more, it fails
with `HeadersTooLong`. -/
theorem c8_head_error_paths :
    (∀ rest : List (List Nat), Conn.head ([] :: rest) none = .Err .ClosedByClient) ∧
    (∀ chunks : List (List Nat),
      (∀ ch ∈ chunks, ch ≠ [] ∧ ch.length ≤ 100 ∧ searchIn ch = none) →
      sumLens chunks < MAX_HEAD_LENGTH →
      0 < sumLens chunks →
      Conn.head (chunks ++ [[]]) none = .Err .PartialHead) ∧
    (∀ chunks : List (List Nat),
      (∀ ch ∈ chunks, ch ≠ [] ∧ ch.length ≤ 100 ∧ searchIn ch = none) →
      MAX_HEAD_LENGTH ≤ sumLens chunks →
      Conn.head chunks none = .Err .HeadersTooLong) := by
  refine ⟨?_, ?_, ?_⟩
  · intro rest
    have hs : searchIn ((writeAt ([] ++ List.replicate 100 0) 0 []).drop 0) = none := by
      rw [writeAt_nil, List.drop_zero, List.nil_append]
      exact searchIn_replicate_zero _
    unfold Conn.head
    simp only [Option.getD_none, headLoop]
    rw [hs]
    simp
  · intro chunks hch hmax hpos
    unfold Conn.head
    simp only [Option.getD_none]
    exact headLoop_partialHead chunks [] 0 (by simp) (by simp) hch
      (by simpa using hmax) (by simpa using hpos)
  · intro chunks hch hmax
    unfold Conn.head
    simp only [Option.getD_none]
    exact headLoop_tooLong chunks [] 0 (by simp) (by simp) hch
      (by simpa using hmax) (by unfold MAX_HEAD_LENGTH; omega)

/-- Witness for `c8_head_error_paths` at concrete streams: an immediate
close, a one-byte read followed by a close, and 82 boundary-free reads of
100 bytes each. -/
theorem c8_head_error_paths_witness :
    Conn.head [[]] none = .Err .ClosedByClient ∧
    Conn.head [[65], []] none = .Err .PartialHead ∧
    Conn.head (List.replicate 82 (List.replicate 100 65)) none = .Err .HeadersTooLong := by
  refine ⟨c8_head_error_paths.1 [], ?_, ?_⟩
  · have h := c8_head_error_paths.2.1 [[65]] (by decide) (by decide) (by decide)
    simpa using h
  · exact c8_head_error_paths.2.2 (List.replicate 82 (List.replicate 100 65))
      (by decide) (by decide)

deriving instance DecidableEq for Except

/-- A connection with the given request headers, response headers and
status, the other fields at their post-parse defaults. -/
def connOf (req res : Headers) (st : Option Nat) : Conn :=
  ⟨req, res, .Get, st, none, .Start⟩

/-- C2 counterexample: a request carrying both a `Content-Length` header
(with the unparseable value `"abc"`) and `Transfer-Encoding: chunked`
fails with `MalformedHeader("content-length")`, not with
`UnexpectedHeader("content-length")` as the claim states: the content
length is parsed before the conflict check. -/
theorem c2_counterexample :
    (initialize_request_body_state
      (connOf [⟨contentLengthN, ["abc".toList]⟩, ⟨transferEncodingN, [chunkedV]⟩]
        [] none)).1 = .error (.MalformedHeader contentLengthN) ∧
    (initialize_request_body_state
      (connOf [⟨contentLengthN, ["abc".toList]⟩, ⟨transferEncodingN, [chunkedV]⟩]
        [] none)).1 ≠ .error (.UnexpectedHeader contentLengthN) := by
  exact ⟨by decide, by decide⟩

/-- C2 (amended to a parseable `Content-Length` value): whenever the
request's content length resolves to a value and the transfer-encoding
check reports `chunked`, resolving the body framing from `Start` fails
with `UnexpectedHeader("content-length")` and leaves the connection — in
particular its `request_body_state` — unchanged, whatever the header
order. -/
theorem c2_conflicting_framing_error (c : Conn) (n : Nat)
    (hcl : request_content_length c = .ok (some n))
    (hte : containsIgnoreAsciiCase c.request_headers transferEncodingN chunkedV = true)
    (hst : c.request_body_state = .Start) :
    initialize_request_body_state c = (.error (.UnexpectedHeader contentLengthN), c) := by
  unfold initialize_request_body_state
  rw [hst, hcl, hte]
  simp

/-- Witness for `c2_conflicting_framing_error`: `Content-Length: 5`
together with `Transfer-Encoding: chunked`. -/
theorem c2_witness :
    initialize_request_body_state
        (connOf [⟨contentLengthN, ["5".toList]⟩, ⟨transferEncodingN, [chunkedV]⟩] [] none) =
      (.error (.UnexpectedHeader contentLengthN),
        connOf [⟨contentLengthN, ["5".toList]⟩, ⟨transferEncodingN, [chunkedV]⟩] [] none) := by
  exact c2_conflicting_framing_error _ 5 (by decide) (by decide) (by decide)

lemma containsSub_char_iff (hay needle : Str) :
    containsSub hay needle = true ↔ needle <:+: hay := by
  induction hay with
  | nil =>
    rw [containsSub]
    by_cases hp : needle.isPrefixOf [] = true
    · simp only [hp, if_true, true_iff]
      exact (List.isPrefixOf_iff_prefix.mp hp).isInfix
    · rw [if_neg hp]
      constructor
      · intro h
        simp at h
      · intro hc
        rw [List.infix_nil] at hc
        exact absurd (List.isPrefixOf_iff_prefix.mpr (by simp [hc])) hp
  | cons a t ih =>
    rw [containsSub, List.infix_cons_iff]
    by_cases hp : needle.isPrefixOf (a :: t) = true
    · simp [hp, List.isPrefixOf_iff_prefix.mp hp]
    · rw [if_neg hp]
      rw [ih]
      constructor
      · exact fun h => Or.inr h
      · rintro (h | h)
        · exact absurd (List.isPrefixOf_iff_prefix.mpr h) hp
        · exact h

/-- C4 counterexample: a request with `Connection: closed` — no `close`
token under the claim's case-insensitive token matching — still makes
`should_close` return true, because the code performs a substring match. -/
theorem c4_counterexample :
    should_close (connOf [⟨connectionN, ["closed".toList]⟩] [] none) = true ∧
    connectionHasToken
      (connOf [⟨connectionN, ["closed".toList]⟩] [] none).request_headers closeV = false ∧
    connectionHasToken
      (connOf [⟨connectionN, ["closed".toList]⟩] [] none).response_headers closeV = false := by
  exact ⟨by decide, by decide, by decide⟩

/-- C4 (amended from token matching to substring matching): `should_close`
returns true iff the request headers or the response headers carry a
`Connection` header whose value contains `"close"` as a case-insensitive
substring. -/
theorem c4_should_close_iff (c : Conn) :
    should_close c = true ↔
      ((∃ v, Headers.getStr c.request_headers connectionN = some v ∧
          asciiLower closeV <:+: asciiLower v) ∨
       (∃ v, Headers.getStr c.response_headers connectionN = some v ∧
          asciiLower closeV <:+: asciiLower v)) := by
  unfold should_close containsIgnoreAsciiCase
  rw [Bool.or_eq_true]
  cases hq : Headers.getStr c.request_headers connectionN <;>
    cases hs : Headers.getStr c.response_headers connectionN <;>
      simp [containsSub_char_iff]

/-- C3 counterexample: request headers `Upgrade: websocket` and
`Connection: keep-alive, upgrade` (the comma-separated list as sent on the
wire, with a space after the comma) with status 101 satisfy all three of
the claim's conditions, yet `should_upgrade` returns false: the code
splits on `","` without trimming, so the piece `" upgrade"` is not equal
to `"upgrade"`. -/
theorem c3_counterexample :
    (Headers.get (connOf [⟨upgradeN, ["websocket".toList]⟩,
        ⟨connectionN, ["keep-alive, upgrade".toList]⟩] [] (some 101)).request_headers
      upgradeN).isSome = true ∧
    connectionHasToken (connOf [⟨upgradeN, ["websocket".toList]⟩,
        ⟨connectionN, ["keep-alive, upgrade".toList]⟩] [] (some 101)).request_headers
      upgradeN = true ∧
    (connOf [⟨upgradeN, ["websocket".toList]⟩,
        ⟨connectionN, ["keep-alive, upgrade".toList]⟩] [] (some 101)).status = some 101 ∧
    should_upgrade (connOf [⟨upgradeN, ["websocket".toList]⟩,
        ⟨connectionN, ["keep-alive, upgrade".toList]⟩] [] (some 101)) = false := by
  exact ⟨by decide, by decide, by decide, by decide⟩

/-- C3 (amended: the Connection value is split on `","` and a piece must
equal `"upgrade"` ignoring ASCII case, with no whitespace trimming):
`should_upgrade` returns true iff an `Upgrade` request header exists, some
untrimmed comma-separated piece of the `Connection` value lowercases to
`"upgrade"`, and the status is exactly 101. -/
theorem c3_should_upgrade_iff (c : Conn) :
    should_upgrade c = true ↔
      ((Headers.get c.request_headers upgradeN).isSome = true ∧
       (∃ v, Headers.getStr c.request_headers connectionN = some v ∧
          ∃ t ∈ splitComma v, asciiLower t = upgradeN) ∧
       c.status = some 101) := by
  unfold should_upgrade
  have hu : asciiLower upgradeN = upgradeN := by decide
  cases hq : Headers.getStr c.request_headers connectionN <;>
    simp [hq, List.any_eq_true, eqIgnoreAsciiCase, hu, and_assoc]

/-- C7: `finish` returns `Close` whenever `should_close` holds — checked
before the upgrade test, so a simultaneously closing and upgrading
response closes — otherwise `Upgrade` when `should_upgrade` holds,
otherwise it dispatches on the outcome of parsing the next head:
`ClosedByClient` becomes the `Close` outcome, every other error
propagates, and a parsed connection continues the loop. -/
theorem c7_finish_dispatch (c : Conn) (next : Except Error Conn) :
    (should_close c = true → finish c next = .ok .Close) ∧
    (should_close c = false → should_upgrade c = true →
      finish c next = .ok (.Upgrade c)) ∧
    (should_close c = false → should_upgrade c = false →
      (next = .error .ClosedByClient → finish c next = .ok .Close) ∧
      (∀ e, next = .error e → e ≠ .ClosedByClient → finish c next = .error e) ∧
      (∀ c2, next = .ok c2 → finish c next = .ok (.Conn c2))) := by
  unfold finish
  refine ⟨?_, ?_, ?_⟩
  · intro h
    rw [if_pos h]
  · intro h1 h2
    rw [if_neg (by simp [h1]), if_pos h2]
  · intro h1 h2
    rw [if_neg (by simp [h1]), if_neg (by simp [h2])]
    refine ⟨?_, ?_, ?_⟩
    · intro h
      rw [h]
    · intro e he hne
      rw [he]
      cases e <;> simp_all
    · intro c2 h
      rw [h]

/-- Witness for `c7_finish_dispatch`: a closing-and-upgrading exchange
closes; an upgrading one upgrades; a plain one translates
`ClosedByClient` to `Close`, propagates `PartialHead`, and continues on a
parsed connection. -/
theorem c7_finish_dispatch_witness :
    finish (connOf [⟨upgradeN, ["websocket".toList]⟩, ⟨connectionN, ["close,upgrade".toList]⟩]
        [] (some 101)) (.ok (connOf [] [] none)) = .ok .Close ∧
    finish (connOf [⟨upgradeN, ["websocket".toList]⟩, ⟨connectionN, ["upgrade".toList]⟩]
        [] (some 101)) (.ok (connOf [] [] none)) =
      .ok (.Upgrade (connOf [⟨upgradeN, ["websocket".toList]⟩,
        ⟨connectionN, ["upgrade".toList]⟩] [] (some 101))) ∧
    finish (connOf [] [] none) (.error .ClosedByClient) = .ok .Close ∧
    finish (connOf [] [] none) (.error .PartialHead) = .error .PartialHead ∧
    finish (connOf [] [] none) (.ok (connOf [] [] (some 200))) =
      .ok (.Conn (connOf [] [] (some 200))) := by
  refine ⟨?_, ?_, ?_, ?_, ?_⟩
  · exact (c7_finish_dispatch _ _).1 (by decide)
  · exact (c7_finish_dispatch _ _).2.1 (by decide) (by decide)
  · exact ((c7_finish_dispatch _ _).2.2 (by decide) (by decide)).1 rfl
  · exact ((c7_finish_dispatch _ _).2.2 (by decide) (by decide)).2.1 .PartialHead rfl (by decide)
  · exact ((c7_finish_dispatch _ _).2.2 (by decide) (by decide)).2.2 _ rfl

/-- C10: whenever lazily resolving the body framing fails,
`request_body` still hands back a body handle over the connection — the
error is dropped with `.ok()` — the connection is unchanged, and its
`request_body_state` was (and remains) `Start`. -/
theorem c10_request_body_discards_error (c : Conn) (e : Error)
    (h : (initialize_request_body_state c).1 = .error e) :
    request_body c = c ∧ c.request_body_state = .Start := by
  obtain ⟨rh, sh, m, st, rb, rbs⟩ := c
  cases rbs with
  | Start =>
    refine ⟨?_, rfl⟩
    simp only [request_body, initialize_request_body_state] at h ⊢
    cases hrc : request_content_length ⟨rh, sh, m, st, rb, .Start⟩ with
    | error e2 => rfl
    | ok cl =>
      cases hb : (cl.isSome && containsIgnoreAsciiCase rh transferEncodingN chunkedV) with
      | true =>
        simp only [hb]
        rfl
      | false =>
        rw [hrc] at h
        simp [hb] at h
  | Chunked r => simp [initialize_request_body_state] at h
  | FixedLength i t => simp [initialize_request_body_state] at h
  | End => simp [initialize_request_body_state] at h

/-- Witness for `c10_request_body_discards_error`: a lone malformed
`Content-Length: oops` makes initialization fail, yet `request_body`
returns the unchanged connection whose state is still `Start`. -/
theorem c10_request_body_discards_error_witness :
    request_body (connOf [⟨contentLengthN, ["oops".toList]⟩] [] none) =
        connOf [⟨contentLengthN, ["oops".toList]⟩] [] none ∧
    (connOf [⟨contentLengthN, ["oops".toList]⟩] [] none).request_body_state = .Start := by
  exact c10_request_body_discards_error _ (.MalformedHeader contentLengthN) (by decide)

/-- C6: for a `HEAD` exchange with a body set, `encode` writes exactly the
header bytes and no body bytes; the header bytes (and so the framing
header) do not depend on the method, and a non-`HEAD` method would have
written those same header bytes followed by the encoded body. -/
theorem c6_head_request_writes_no_body (c : Conn) (now : Str) (b : Body)
    (hm : c.method = Method.Head) (hb : c.response_body = some b) :
    encodeOutput c now = sendHeadersOutput c now ∧
    (∀ m : Method, sendHeadersOutput { c with method := m } now = sendHeadersOutput c now) ∧
    encodeOutput { c with method := Method.Get } now =
      sendHeadersOutput c now ++ bodyEncoderOutput b := by
  refine ⟨?_, fun m => rfl, ?_⟩
  · unfold encodeOutput
    rw [hm]
    simp
  · rw [show sendHeadersOutput c now = sendHeadersOutput { c with method := Method.Get } now
      from rfl]
    unfold encodeOutput
    simp [hb]

/-- Witness for `c6_head_request_writes_no_body`: a `HEAD` exchange with
status 200 and the two-byte body `"hi"`. -/
theorem c6_head_request_writes_no_body_witness :
    encodeOutput ⟨[], [], .Head, some 200, some (.bytes "hi".toList), .Start⟩ "D".toList =
      sendHeadersOutput ⟨[], [], .Head, some 200, some (.bytes "hi".toList), .Start⟩ "D".toList ∧
    (∀ m : Method,
      sendHeadersOutput
          { (⟨[], [], .Head, some 200, some (.bytes "hi".toList), .Start⟩ : Conn) with
            method := m } "D".toList =
        sendHeadersOutput ⟨[], [], .Head, some 200, some (.bytes "hi".toList), .Start⟩
          "D".toList) ∧
    encodeOutput
        { (⟨[], [], .Head, some 200, some (.bytes "hi".toList), .Start⟩ : Conn) with
          method := Method.Get } "D".toList =
      sendHeadersOutput ⟨[], [], .Head, some 200, some (.bytes "hi".toList), .Start⟩ "D".toList
        ++ bodyEncoderOutput (.bytes "hi".toList) := by
  exact c6_head_request_writes_no_body _ _ _ rfl rfl

lemma find?_filter_keep {α : Type} (l : List α) (p q : α → Bool)
    (h : ∀ a, p a = true → q a = true) :
    (l.filter q).find? p = l.find? p := by
  induction l with
  | nil => rfl
  | cons a t ih =>
    cases hq : q a with
    | true =>
      rw [List.filter_cons_of_pos hq]
      cases hp : p a with
      | true => rw [List.find?_cons_of_pos _ hp, List.find?_cons_of_pos _ hp]
      | false =>
        rw [List.find?_cons_of_neg _ (by simp [hp]),
          List.find?_cons_of_neg _ (by simp [hp]), ih]
    | false =>
      rw [List.filter_cons_of_neg (by simp [hq])]
      have hp : p a = false := by
        cases hpa : p a with
        | true => exact absurd (h a hpa) (by simp [hq])
        | false => rfl
      rw [List.find?_cons_of_neg _ (by simp [hp]), ih]

lemma countP_filter_keep {α : Type} (l : List α) (p q : α → Bool)
    (h : ∀ a, p a = true → q a = true) :
    (l.filter q).countP p = l.countP p := by
  induction l with
  | nil => rfl
  | cons a t ih =>
    cases hq : q a with
    | true =>
      rw [List.filter_cons_of_pos hq, List.countP_cons, List.countP_cons, ih]
    | false =>
      have hp : p a = false := by
        cases hpa : p a with
        | true => exact absurd (h a hpa) (by simp [hq])
        | false => rfl
      rw [List.filter_cons_of_neg (by simp [hq]), List.countP_cons, hp, ih]
      simp

lemma get_eq_none_iff (h : Headers) (n : Str) :
    Headers.get h n = none ↔ ∀ e ∈ h, asciiLower e.name ≠ asciiLower n := by
  unfold Headers.get
  rw [Option.map_eq_none', List.find?_eq_none]
  constructor
  · intro hf e he
    simpa using hf e he
  · intro hf e he
    simpa using hf e he

lemma get_insert_self (h : Headers) (n : Str) (vs : List Str) :
    Headers.get (Headers.insert h n vs) n = some vs := by
  unfold Headers.get Headers.insert
  rw [List.find?_append]
  have h1 : ((h.filter fun e => !(asciiLower e.name == asciiLower n)).find?
      fun e => asciiLower e.name == asciiLower n) = none := by
    rw [List.find?_eq_none]
    intro a ha
    have hm := (List.mem_filter.mp ha).2
    simp at hm
    simp [hm]
  rw [h1, Option.none_or]
  simp [List.find?]

lemma get_insert_of_ne (h : Headers) (n m : Str) (vs : List Str)
    (hne : asciiLower m ≠ asciiLower n) :
    Headers.get (Headers.insert h n vs) m = Headers.get h m := by
  unfold Headers.get Headers.insert
  rw [List.find?_append]
  have h2 : (([⟨n, vs⟩] : Headers).find? fun e => asciiLower e.name == asciiLower m) = none := by
    have hb : (asciiLower n == asciiLower m) = false :=
      beq_eq_false_iff_ne.mpr (Ne.symm hne)
    simp [List.find?, hb]
  rw [h2, find?_filter_keep _ _ _ ?_, Option.or_none]
  intro a ha
  simp at ha ⊢
  rw [ha]
  exact hne

/-- An entry carrying one of the two framing header names. -/
def isFraming (e : HeaderEntry) : Bool :=
  (asciiLower e.name == asciiLower contentLengthN) ||
    (asciiLower e.name == asciiLower transferEncodingN)

/-- Number of framing headers (`Content-Length` or `Transfer-Encoding`)
present. -/
def framingCount (h : Headers) : Nat := h.countP isFraming

lemma no_framing_of_get_none (h : Headers)
    (hte : Headers.get h transferEncodingN = none)
    (hcl : Headers.get h contentLengthN = none) :
    ∀ e ∈ h, isFraming e = false := by
  intro e he
  rw [get_eq_none_iff] at hte hcl
  have h1 := hte e he
  have h2 := hcl e he
  simp [isFraming]
  exact ⟨h2, h1⟩

lemma framingCount_insert_framing (h : Headers) (n : Str) (vs : List Str)
    (hn : isFraming ⟨n, vs⟩ = true)
    (h0 : ∀ e ∈ h, isFraming e = false) :
    framingCount (Headers.insert h n vs) = 1 := by
  unfold framingCount Headers.insert
  rw [List.countP_append]
  have hz : ((h.filter fun e => !(asciiLower e.name == asciiLower n)).countP isFraming) = 0 := by
    rw [List.countP_eq_zero]
    intro a ha
    simp [h0 a (List.mem_filter.mp ha).1]
  rw [hz]
  simp [List.countP_cons, hn]

lemma framingCount_insert_nonframing (h : Headers) (n : Str) (vs : List Str)
    (hn : isFraming ⟨n, vs⟩ = false)
    (hkeep : ∀ e, isFraming e = true → (!(asciiLower e.name == asciiLower n)) = true) :
    framingCount (Headers.insert h n vs) = framingCount h := by
  unfold framingCount Headers.insert
  rw [List.countP_append, countP_filter_keep _ _ _ hkeep]
  simp [List.countP_cons, hn]

lemma isFraming_cl (vs : List Str) : isFraming ⟨contentLengthN, vs⟩ = true := by
  simp [isFraming]

lemma isFraming_te (vs : List Str) : isFraming ⟨transferEncodingN, vs⟩ = true := by
  simp [isFraming]

lemma isFraming_date (vs : List Str) : isFraming ⟨dateN, vs⟩ = false := by
  simp [isFraming]
  exact ⟨by decide, by decide⟩

lemma keep_date (e : HeaderEntry) (he : isFraming e = true) :
    (!(asciiLower e.name == asciiLower dateN)) = true := by
  simp [isFraming] at he
  simp
  rcases he with h | h <;> rw [h] <;> decide

lemma ne_te_cl : asciiLower transferEncodingN ≠ asciiLower contentLengthN := by decide

lemma ne_cl_te : asciiLower contentLengthN ≠ asciiLower transferEncodingN := by decide

lemma ne_date_cl : asciiLower dateN ≠ asciiLower contentLengthN := by decide

lemma ne_date_te : asciiLower dateN ≠ asciiLower transferEncodingN := by decide

lemma ne_cl_date : asciiLower contentLengthN ≠ asciiLower dateN := by decide

lemma ne_te_date : asciiLower transferEncodingN ≠ asciiLower dateN := by decide

/-- C5 counterexample: when the application has itself set both
`Transfer-Encoding: chunked` and `Content-Length: 5`, `finalize_headers`
leaves the headers untouched (the transfer-encoding branch skips framing),
so the finalized response carries two framing headers, not exactly one. -/
theorem c5_counterexample :
    framingCount (finalize_headers
      (connOf [] [⟨transferEncodingN, [chunkedV]⟩, ⟨contentLengthN, ["5".toList]⟩] none)
      "D".toList) = 2 := by
  decide

/-- C5 (amended: restricted to responses whose application-set headers
contain neither framing header): after `finalize_headers` the response
headers contain exactly one framing header — `Content-Length` exactly when
the body length is statically known (including the zero-length default
when no body was set), otherwise `Transfer-Encoding: chunked` — and a
`Date` header is present, inserted only when the caller had not already
set one (an existing `Date` value is preserved). -/
theorem c5_finalize_headers_framing (c : Conn) (now : Str)
    (hte : Headers.get c.response_headers transferEncodingN = none)
    (hcl : Headers.get c.response_headers contentLengthN = none) :
    framingCount (finalize_headers c now) = 1 ∧
    (∀ n, body_len c = some n →
      Headers.get (finalize_headers c now) contentLengthN = some [natToStr n] ∧
      Headers.get (finalize_headers c now) transferEncodingN = none) ∧
    (body_len c = none →
      Headers.get (finalize_headers c now) transferEncodingN = some [chunkedV] ∧
      Headers.get (finalize_headers c now) contentLengthN = none) ∧
    (Headers.get (finalize_headers c now) dateN).isSome = true ∧
    (∀ d, Headers.get c.response_headers dateN = some d →
      Headers.get (finalize_headers c now) dateN = some d) := by
  have hnf := no_framing_of_get_none _ hte hcl
  have hcond : (Headers.get c.response_headers transferEncodingN).isNone = true := by
    rw [hte]
    rfl
  cases hbl : body_len c with
  | some n =>
    have hfin : finalize_headers c now =
        (if (Headers.get (Headers.insert c.response_headers contentLengthN
              [natToStr n]) dateN).isNone
         then Headers.insert (Headers.insert c.response_headers contentLengthN
              [natToStr n]) dateN [now]
         else Headers.insert c.response_headers contentLengthN [natToStr n]) := by
      unfold finalize_headers
      simp only [hte, hbl, Option.isNone_none, eq_self_iff_true, if_true]
    have f1 : Headers.get (Headers.insert c.response_headers contentLengthN
        [natToStr n]) contentLengthN = some [natToStr n] := get_insert_self _ _ _
    have f2 : Headers.get (Headers.insert c.response_headers contentLengthN
        [natToStr n]) transferEncodingN = none := by
      rw [get_insert_of_ne _ _ _ _ ne_te_cl, hte]
    have f3 : Headers.get (Headers.insert c.response_headers contentLengthN
        [natToStr n]) dateN = Headers.get c.response_headers dateN :=
      get_insert_of_ne _ _ _ _ ne_date_cl
    have fc : framingCount (Headers.insert c.response_headers contentLengthN
        [natToStr n]) = 1 :=
      framingCount_insert_framing _ _ _ (isFraming_cl _) hnf
    rw [hfin, f3]
    cases hd : Headers.get c.response_headers dateN with
    | none =>
      simp only [Option.isNone_none, eq_self_iff_true, if_true]
      refine ⟨?_, ?_, ?_, ?_, ?_⟩
      · rw [framingCount_insert_nonframing _ _ _ (isFraming_date _) keep_date, fc]
      · intro n2 hbl2
        injection hbl2 with hnn
        subst hnn
        exact ⟨by rw [get_insert_of_ne _ _ _ _ ne_cl_date, f1],
          by rw [get_insert_of_ne _ _ _ _ ne_te_date, f2]⟩
      · intro hb
        exact absurd hb (by simp)
      · rw [get_insert_self]
        rfl
      · intro d hd2
        exact absurd hd2 (by simp)
    | some d0 =>
      simp only [Option.isNone_some, Bool.false_eq_true, if_false]
      refine ⟨fc, ?_, ?_, ?_, ?_⟩
      · intro n2 hbl2
        injection hbl2 with hnn
        subst hnn
        exact ⟨f1, f2⟩
      · intro hb
        exact absurd hb (by simp)
      · rw [f3, hd]
        rfl
      · intro d hd2
        rw [f3, hd]
        exact hd2
  | none =>
    have hfin : finalize_headers c now =
        (if (Headers.get (Headers.insert c.response_headers transferEncodingN
              [chunkedV]) dateN).isNone
         then Headers.insert (Headers.insert c.response_headers transferEncodingN
              [chunkedV]) dateN [now]
         else Headers.insert c.response_headers transferEncodingN [chunkedV]) := by
      unfold finalize_headers
      simp only [hte, hbl, Option.isNone_none, eq_self_iff_true, if_true]
    have f1 : Headers.get (Headers.insert c.response_headers transferEncodingN
        [chunkedV]) transferEncodingN = some [chunkedV] := get_insert_self _ _ _
    have f2 : Headers.get (Headers.insert c.response_headers transferEncodingN
        [chunkedV]) contentLengthN = none := by
      rw [get_insert_of_ne _ _ _ _ ne_cl_te, hcl]
    have f3 : Headers.get (Headers.insert c.response_headers transferEncodingN
        [chunkedV]) dateN = Headers.get c.response_headers dateN :=
      get_insert_of_ne _ _ _ _ ne_date_te
    have fc : framingCount (Headers.insert c.response_headers transferEncodingN
        [chunkedV]) = 1 :=
      framingCount_insert_framing _ _ _ (isFraming_te _) hnf
    rw [hfin, f3]
    cases hd : Headers.get c.response_headers dateN with
    | none =>
      simp only [Option.isNone_none, eq_self_iff_true, if_true]
      refine ⟨?_, ?_, ?_, ?_, ?_⟩
      · rw [framingCount_insert_nonframing _ _ _ (isFraming_date _) keep_date, fc]
      · intro n2 hbl2
        exact absurd hbl2 (by simp)
      · intro hb
        exact ⟨by rw [get_insert_of_ne _ _ _ _ ne_te_date, f1],
          by rw [get_insert_of_ne _ _ _ _ ne_cl_date, f2]⟩
      · rw [get_insert_self]
        rfl
      · intro d hd2
        exact absurd hd2 (by simp)
    | some d0 =>
      simp only [Option.isNone_some, Bool.false_eq_true, if_false]
      refine ⟨fc, ?_, ?_, ?_, ?_⟩
      · intro n2 hbl2
        exact absurd hbl2 (by simp)
      · intro hb
        exact ⟨f1, f2⟩
      · rw [f3, hd]
        rfl
      · intro d hd2
        rw [f3, hd]
        exact hd2

/-- Witness for `c5_finalize_headers_framing`: a response with no headers
set and no body, finalized with date string `"D"`. -/
theorem c5_finalize_headers_framing_witness :
    framingCount (finalize_headers (connOf [] [] (some 200)) ['D']) = 1 ∧
    (∀ n, body_len (connOf [] [] (some 200)) = some n →
      Headers.get (finalize_headers (connOf [] [] (some 200)) ['D']) contentLengthN =
        some [natToStr n] ∧
      Headers.get (finalize_headers (connOf [] [] (some 200)) ['D']) transferEncodingN =
        none) ∧
    (body_len (connOf [] [] (some 200)) = none →
      Headers.get (finalize_headers (connOf [] [] (some 200)) ['D']) transferEncodingN =
        some [chunkedV] ∧
      Headers.get (finalize_headers (connOf [] [] (some 200)) ['D']) contentLengthN = none) ∧
    (Headers.get (finalize_headers (connOf [] [] (some 200)) ['D']) dateN).isSome = true ∧
    (∀ d, Headers.get (connOf [] [] (some 200)).response_headers dateN = some d →
      Headers.get (finalize_headers (connOf [] [] (some 200)) ['D']) dateN = some d) := by
  exact c5_finalize_headers_framing (connOf [] [] (some 200)) ['D'] rfl rfl

lemma sortHeaders_sorted (h : Headers) : List.Sorted entryLe (sortHeaders h) :=
  List.sorted_insertionSort entryLe h

lemma sortHeaders_perm (h : Headers) : (sortHeaders h).Perm h :=
  List.perm_insertionSort entryLe h

lemma sorted_perm_nodup_eq :
    ∀ (l₁ l₂ : Headers), List.Sorted entryLe l₁ → List.Sorted entryLe l₂ →
      l₁.Perm l₂ → (l₁.map fun e => e.name).Nodup → l₁ = l₂ := by
  intro l₁
  induction l₁ with
  | nil =>
    intro l₂ _ _ hp _
    exact (List.Perm.eq_nil hp.symm).symm
  | cons a t ih =>
    intro l₂ hs₁ hs₂ hp hnd
    cases l₂ with
    | nil => exact absurd hp.eq_nil (by simp)
    | cons b t₂ =>
      rw [List.map_cons, List.nodup_cons] at hnd
      have hab : a = b := by
        have ha2 : a ∈ b :: t₂ := hp.mem_iff.mp (by simp)
        have hb1 : b ∈ a :: t := hp.mem_iff.mpr (by simp)
        rcases List.mem_cons.mp ha2 with h | ha2t
        · exact h
        · rcases List.mem_cons.mp hb1 with h | hb1t
          · exact h.symm
          · have h1 : entryLe a b := (List.sorted_cons.mp hs₁).1 b hb1t
            have h2 : entryLe b a := (List.sorted_cons.mp hs₂).1 a ha2t
            have hname : a.name = b.name :=
              le_antisymm (show a.name ≤ b.name from h1) (show b.name ≤ a.name from h2)
            exact absurd (List.mem_map.mpr ⟨b, hb1t, hname.symm⟩) hnd.1
      subst hab
      have ht := ih t₂ (List.sorted_cons.mp hs₁).2 (List.sorted_cons.mp hs₂).2
        hp.cons_inv hnd.2
      rw [ht]

/-- C9: `send_headers` writes the status line — using the set status, or
404 Not Found when none was set — then the finalized headers sorted
lexicographically by name with one `Name: value\r\n` line per value, then
a blank line; the sorted sequence is a permutation of the finalized
headers, and sorting is invariant under the insertion order of
distinctly-named headers. -/
theorem c9_send_headers_format (c : Conn) (now : Str) :
    sendHeadersOutput c now =
      statusLine c ++ renderHeaders (sortHeaders (finalize_headers c now)) ++ crlf ∧
    List.Sorted entryLe (sortHeaders (finalize_headers c now)) ∧
    (sortHeaders (finalize_headers c now)).Perm (finalize_headers c now) ∧
    (c.status = none → statusLine c = "HTTP/1.1 404 Not Found\r\n".toList) ∧
    (∀ s, c.status = some s →
      statusLine c = "HTTP/1.1 ".toList ++ natToStr s ++ ' ' :: (canonicalReason s ++ crlf)) ∧
    (∀ h₁ h₂ : Headers, h₁.Perm h₂ → (h₁.map fun e => e.name).Nodup →
      sortHeaders h₁ = sortHeaders h₂) := by
  refine ⟨rfl, sortHeaders_sorted _, sortHeaders_perm _, ?_, ?_, ?_⟩
  · intro h
    unfold statusLine
    rw [h]
    rfl
  · intro s hs
    unfold statusLine
    rw [hs]
    rfl
  · intro h₁ h₂ hperm hnd
    apply sorted_perm_nodup_eq _ _ (sortHeaders_sorted h₁) (sortHeaders_sorted h₂)
    · exact (sortHeaders_perm h₁).trans (hperm.trans (sortHeaders_perm h₂).symm)
    · have hmap : ((sortHeaders h₁).map fun e => e.name).Perm (h₁.map fun e => e.name) :=
        (sortHeaders_perm h₁).map _
      exact hmap.nodup_iff.mpr hnd

/-- Witness for `c9_send_headers_format`: the 404 default line, the 200
line, and insertion-order invariance for two distinctly named headers. -/
theorem c9_send_headers_format_witness :
    statusLine (connOf [] [] none) = "HTTP/1.1 404 Not Found\r\n".toList ∧
    statusLine (connOf [] [] (some 200)) =
      "HTTP/1.1 ".toList ++ natToStr 200 ++ ' ' :: (canonicalReason 200 ++ crlf) ∧
    sortHeaders [⟨dateN, [['D']]⟩, ⟨contentLengthN, [['0']]⟩] =
      sortHeaders [⟨contentLengthN, [['0']]⟩, ⟨dateN, [['D']]⟩] := by
  refine ⟨?_, ?_, ?_⟩
  · exact (c9_send_headers_format (connOf [] [] none) []).2.2.2.1 rfl
  · exact (c9_send_headers_format (connOf [] [] (some 200)) []).2.2.2.2.1 200 rfl
  · exact (c9_send_headers_format (connOf [] [] none) []).2.2.2.2.2 _ _
      (List.Perm.swap _ _ _) (by decide)
